import Mathlib

/-!
Verification of the upload-handling behavior of the bunsane-sample repository.

The development shallowly embeds the code paths that the specification talks
about:

* `src/services/PostService.ts`, legacy `createPost` mutation: the inline
  image-upload block (extension derivation from the declared MIME type, file
  name generation from the freshly created image entity id, `fs.mkdirSync` +
  `fs.writeFileSync` to `./public/uploads/...`, and attachment of the
  `ImageViewComponent` / `LocalImageComponent` records).
* `examples/ImageGalleryService.ts`, `GalleryImageComponent`
  (`getImageIds` / `addImageId` over a JSON-encoded string field) and
  `processBatchImageUpload` (per-result counting and batch summary).
* `UploadManager.uploadFiles`, which `processBatchImageUpload` delegates to,
  is framework code whose implementation is not part of this repository; it
  is modelled from the specification where a claim requires it.

Machine integers do not overflow in any modelled path, so byte values are
plain `Nat`; filesystem contents are total maps `String → Option (List Nat)`.
-/

namespace BunsaneSample

/-- Extension table of the legacy `createPost` mutation
(`getExtensionFromMimeType`, PostService.ts lines 184-192): a fixed map from
the declared MIME type, with `"bin"` as the fallback for unknown types. -/
def getExtensionFromMimeType (mimeType : String) : String :=
  if mimeType = "image/jpeg" then "jpg"
  else if mimeType = "image/png" then "png"
  else if mimeType = "image/gif" then "gif"
  else if mimeType = "image/webp" then "webp"
  else "bin"

/-- Upload directory used by the legacy `createPost` (PostService.ts line 195). -/
def uploadsDir : String := "./public/uploads"

/-- Storage name generated by the legacy `createPost` (PostService.ts line 193):
the fresh image entity id joined with the MIME-derived extension. -/
def genFilename (entityId : String) (mimeType : String) : String :=
  entityId ++ "." ++ getExtensionFromMimeType mimeType

/-- Final path of the stored upload (PostService.ts line 194). -/
def imageFinalPath (entityId : String) (mimeType : String) : String :=
  uploadsDir ++ "/" ++ genFilename entityId mimeType

/-- Filesystem operations performed by the modelled code. `write` is the
non-atomic `fs.writeFileSync`; `rename` is the atomic commit step the
specification prescribes (the legacy code never emits one). -/
inductive FsOp where
  | mkdir (p : String)
  | write (p : String) (data : List Nat)
  | rename (src : String) (dst : String)
deriving DecidableEq

/-- Filesystem ops executed by the image-store block of the legacy
`createPost` (PostService.ts lines 195-196): create the upload directory,
then write the bytes directly to the final path. -/
def storeImageOps (entityId : String) (mimeType : String) (bytes : List Nat) : List FsOp :=
  [FsOp.mkdir uploadsDir, FsOp.write (imageFinalPath entityId mimeType) bytes]

/-- Filesystem contents: each path maps to the bytes of the file stored
there, if any. Directories are not tracked (no claim depends on them). -/
def Fs : Type := String → Option (List Nat)

/-- Empty filesystem. -/
def emptyFs : Fs := fun _ => none

/-- Effect of one successfully completed filesystem operation. -/
def applyOp (fs : Fs) : FsOp → Fs
  | FsOp.mkdir _ => fs
  | FsOp.write p d => fun q => if q = p then some d else fs q
  | FsOp.rename src dst =>
      fun q => if q = dst then fs src else if q = src then none else fs q

/-- Run a sequence of operations to completion. -/
def runOps (fs : Fs) (ops : List FsOp) : Fs :=
  ops.foldl applyOp fs

/-- Run `ops` but fail during operation `k`: the operations before `k`
complete, and if operation `k` is a `write` it leaves a partial file holding
the first `writtenLen` bytes (`fs.writeFileSync` is not atomic, so an I/O
failure mid-write leaves a truncated file at the target path); a failing
`mkdir` or `rename` has no effect (`rename` is atomic). Operations after `k`
do not run. -/
def runFailAt (fs : Fs) (ops : List FsOp) (k : Nat) (writtenLen : Nat) : Fs :=
  let pre := runOps fs (ops.take k)
  match ops[k]? with
  | some (FsOp.write p d) => fun q => if q = p then some (d.take writtenLen) else pre q
  | _ => pre

/-- Predicate: the operation is a rename (commit) step. -/
def FsOp.isRename : FsOp → Bool
  | FsOp.rename _ _ => true
  | _ => false

/-- Uploaded file payload as the GraphQL layer hands it to `createPost`:
declared original name, declared MIME type (`image.type`), declared byte
size, and the raw bytes (`image.arrayBuffer()`). All declared values are
untrusted caller input. -/
structure UploadFile where
  name : String
  mimeType : String
  size : Nat
  bytes : List Nat
deriving DecidableEq, Inhabited

/-- Arguments of the legacy `createPost` mutation (PostService.ts lines
30-43): title, content, author id, optional date, optional image upload. -/
structure CreatePostArgs where
  title : String
  content : String
  author : String
  date : Option String := none
  image : Option UploadFile := none
deriving DecidableEq

/-- Components attached to a post entity (PostService.ts lines 45-92). The
`imageViewC` value mirrors `ImageViewComponent.value : string | null`. -/
inductive PostComp where
  | tag
  | titleC (v : String)
  | contentC (v : String)
  | authorC (v : String)
  | dateC (v : Option String)
  | imageViewC (v : Option String)
deriving DecidableEq

/-- Image entity record produced by the upload block: the fresh entity id and
the `LocalImageComponent` data `{url, realPath}` (PostService.ts line 197). -/
structure ImageRecord where
  id : String
  url : String
  realPath : String
deriving DecidableEq

/-- Observable outcome of a successful `createPost`: the saved post's
components, the saved image entity (if an image was supplied), and the
filesystem operations performed. -/
structure PostOutcome where
  post : List PostComp
  savedImage : Option ImageRecord
  fsOps : List FsOp
deriving DecidableEq

/-- Errors surfaced by `createPost`. -/
inductive PostError where
  | authorNotFound
deriving DecidableEq

/-- Components created by `PostArcheType.fill({...args, date}).createEntity()`
(PostService.ts lines 174-177): the archetype's six components, with
`ImageViewComponent` still holding its declared default `""`. -/
def fillPost (args : CreatePostArgs) : List PostComp :=
  [PostComp.tag, PostComp.titleC args.title, PostComp.contentC args.content,
   PostComp.authorC args.author, PostComp.dateC args.date,
   PostComp.imageViewC (some "")]

/-- Effect of `post.add(ImageViewComponent, {value})` (PostService.ts line
201): the entity's `ImageViewComponent` now carries `value`. -/
def setImageView (comps : List PostComp) (v : Option String) : List PostComp :=
  comps.map fun c =>
    match c with
    | PostComp.imageViewC _ => PostComp.imageViewC v
    | c => c

/-- Legacy `createPost` mutation (PostService.ts lines 163-208), embedded over
its observable effects. `authorExists` stands for `Entity.FindById(args.author)`
succeeding; `newImageId` is the id minted by `Entity.Create()` for the image
entity. When an image is supplied the bytes are written under
`./public/uploads/` with no validation of size, type or content, the image
entity is saved with the `LocalImageComponent` data, and the post's
`ImageViewComponent` is set to the image entity id; otherwise the component
is set to `null`. -/
def createPost (authorExists : Bool) (newImageId : String) (args : CreatePostArgs) :
    Except PostError PostOutcome :=
  if !authorExists then Except.error PostError.authorNotFound
  else
    match args.image with
    | some img =>
        let filename := genFilename newImageId img.mimeType
        Except.ok
          { post := setImageView (fillPost args) (some newImageId)
            savedImage := some
              { id := newImageId
                url := "/uploads/" ++ filename
                realPath := imageFinalPath newImageId img.mimeType }
            fsOps := storeImageOps newImageId img.mimeType img.bytes }
    | none =>
        Except.ok
          { post := setImageView (fillPost args) none
            savedImage := none
            fsOps := [] }

/-- Extension of a filename as the specification's words describe the unique
naming strategy ("the extension taken from the file's original filename"):
the segment after the last dot. Spec-side definition, used only to compare
the specified behavior with the source's `getExtensionFromMimeType`. -/
def specOriginalExtension (name : String) : String :=
  String.mk ((name.data.reverse.takeWhile (fun c => c ≠ '.')).reverse)

/-- Characters of the extension produced by `getExtensionFromMimeType`: it is
one of the five fixed literals, so it never contains a dot or a slash. -/
theorem ext_chars (m : String) :
    '.' ∉ (getExtensionFromMimeType m).data ∧ '/' ∉ (getExtensionFromMimeType m).data := by
  unfold getExtensionFromMimeType
  repeat' split
  all_goals decide

/-- Membership of the generated extension in the fixed table's range. -/
theorem ext_mem (m : String) :
    getExtensionFromMimeType m ∈ (["jpg", "png", "gif", "webp", "bin"] : List String) := by
  unfold getExtensionFromMimeType
  repeat' split
  all_goals simp

/-- Character decomposition of the generated filename. -/
theorem genFilename_data (id m : String) :
    (genFilename id m).data = id.data ++ '.' :: (getExtensionFromMimeType m).data := by
  show (id ++ "." ++ getExtensionFromMimeType m).data = _
  simp [String.data_append]

/-- C3: for every candidate file (arbitrary declared MIME type) and every
caller-supplied policy (the generator consults none), the storage name
produced by the legacy `createPost` name generation — the fresh entity id
joined with the MIME-derived extension — contains no `..` substring and no
`/` path separator (in particular no absolute-path marker), provided the
framework-minted entity id contains no dot and no slash. -/
theorem c3_key_no_traversal (id m : String)
    (hdot : '.' ∉ id.data) (hslash : '/' ∉ id.data) :
    ¬ (['.', '.'] <:+: (genFilename id m).data) ∧ '/' ∉ (genFilename id m).data := by
  constructor
  · intro hinf
    have hle := hinf.sublist.count_le '.'
    have h1 : List.count '.' (genFilename id m).data = 1 := by
      rw [genFilename_data]
      rw [List.count_append, List.count_cons]
      rw [List.count_eq_zero_of_not_mem hdot, List.count_eq_zero_of_not_mem (ext_chars m).1]
      simp
    rw [h1] at hle
    simp [List.count_cons] at hle
  · rw [genFilename_data]
    intro hmem
    rcases List.mem_append.mp hmem with h | h
    · exact hslash h
    · rcases List.mem_cons.mp h with h | h
      · exact absurd h.symm (by decide)
      · exact (ext_chars m).2 h

/-- C3 witness: a concrete UUID-style entity id and MIME type satisfy the
hypotheses, and the generated name is traversal-free. -/
theorem c3_key_no_traversal_witness :
    ('.' ∉ "0f8a-42b7".data ∧ '/' ∉ "0f8a-42b7".data) ∧
      (¬ (['.', '.'] <:+: (genFilename "0f8a-42b7" "image/png").data) ∧
        '/' ∉ (genFilename "0f8a-42b7" "image/png").data) :=
  ⟨⟨by decide, by decide⟩, c3_key_no_traversal "0f8a-42b7" "image/png" (by decide) (by decide)⟩

/-- C4 counterexample: the claim says the generated storage name takes its
extension from the file's original filename. In the code the extension comes
from the declared MIME type instead: for a file originally named
`photo.gif` but declared `image/jpeg`, the generated name is `img1.jpg`,
not the `img1.gif` the claim prescribes. -/
theorem c4_counterexample :
    genFilename "img1" "image/jpeg" = "img1.jpg" ∧
      specOriginalExtension "photo.gif" = "gif" ∧
      genFilename "img1" "image/jpeg" ≠ "img1" ++ "." ++ specOriginalExtension "photo.gif" := by
  refine ⟨by decide, by decide, by decide⟩

/-- C4 amended: under the legacy `createPost` naming, the stored name is the
fresh image entity id combined with an extension derived solely from the
file's declared MIME type (one of jpg/png/gif/webp, else bin); the original
filename — basename and extension alike — is never consulted, so two files
differing only in original name, declared size and bytes receive the same
generated name. -/
theorem c4_amended (id : String) (args : CreatePostArgs) (img : UploadFile)
    (h : args.image = some img) :
    ∃ out, createPost true id args = Except.ok out ∧
      ∃ rec, out.savedImage = some rec ∧
        rec.realPath = uploadsDir ++ "/" ++ (id ++ "." ++ getExtensionFromMimeType img.mimeType) ∧
        getExtensionFromMimeType img.mimeType ∈ (["jpg", "png", "gif", "webp", "bin"] : List String) ∧
        ∀ g : UploadFile, g.mimeType = img.mimeType →
          genFilename id g.mimeType = genFilename id img.mimeType := by
  refine ⟨{ post := setImageView (fillPost args) (some id),
            savedImage := some
              { id := id, url := "/uploads/" ++ genFilename id img.mimeType,
                realPath := imageFinalPath id img.mimeType },
            fsOps := storeImageOps id img.mimeType img.bytes }, ?_, ?_⟩
  · simp [createPost, h]
  · exact ⟨_, rfl, rfl, ext_mem _, fun g hg => by rw [hg]⟩

/-- C4 amended witness: the `photo.gif` file declared `image/jpeg` is stored
under the entity id with extension `jpg`. -/
theorem c4_amended_witness :
    ∃ out,
      createPost true "img1"
          { title := "t", content := "c", author := "a",
            image := some { name := "photo.gif", mimeType := "image/jpeg", size := 5, bytes := [1] } } =
        Except.ok out ∧
      ∃ rec, out.savedImage = some rec ∧
        rec.realPath = uploadsDir ++ "/" ++ ("img1" ++ "." ++ getExtensionFromMimeType "image/jpeg") ∧
        getExtensionFromMimeType "image/jpeg" ∈ (["jpg", "png", "gif", "webp", "bin"] : List String) ∧
        ∀ g : UploadFile, g.mimeType = "image/jpeg" →
          genFilename "img1" g.mimeType = genFilename "img1" "image/jpeg" :=
  c4_amended "img1"
    { title := "t", content := "c", author := "a",
      image := some { name := "photo.gif", mimeType := "image/jpeg", size := 5, bytes := [1] } }
    { name := "photo.gif", mimeType := "image/jpeg", size := 5, bytes := [1] } rfl

/-- C1 counterexample: the claim says a failed store leaves the destination
namespace unchanged because bytes go to a temporary name and are renamed on
success. In the legacy `createPost` the write targets the final key
directly, no rename is ever issued, and an I/O failure two bytes into the
write leaves a partial file `[1, 2]` visible under the final key, which was
previously absent. -/
theorem c1_counterexample :
    runFailAt emptyFs (storeImageOps "img1" "image/png" [1, 2, 3, 4]) 1 2
        (imageFinalPath "img1" "image/png") = some [1, 2] ∧
      emptyFs (imageFinalPath "img1" "image/png") = none ∧
      (storeImageOps "img1" "image/png" [1, 2, 3, 4]).any FsOp.isRename = false ∧
      FsOp.write (imageFinalPath "img1" "image/png") [1, 2, 3, 4]
        ∈ storeImageOps "img1" "image/png" [1, 2, 3, 4] := by
  refine ⟨by decide, rfl, by decide, by decide⟩

/-- C1 amended: the legacy `createPost` stores uploads by writing the bytes
directly to the final path under `./public/uploads` with `fs.writeFileSync`;
there is no temporary name and no rename/commit step, so an I/O failure
during the write leaves a truncated file (the first `k` written bytes)
visible under the final key. -/
theorem c1_amended (id m : String) (bytes : List Nat) (k : Nat) :
    runFailAt emptyFs (storeImageOps id m bytes) 1 k (imageFinalPath id m) =
        some (bytes.take k) ∧
      (storeImageOps id m bytes).any FsOp.isRename = false ∧
      FsOp.write (imageFinalPath id m) bytes ∈ storeImageOps id m bytes := by
  refine ⟨?_, by simp [storeImageOps, FsOp.isRename], by simp [storeImageOps]⟩
  simp [runFailAt, storeImageOps]

/-- C2 counterexample: the claim says a file whose declared size exceeds the
policy's `maxFileSize` is rejected with a size violation and its bytes are
never persisted, and that a zero-byte file is likewise rejected. The legacy
`createPost` performs no size check: a file declaring 2048 bytes under a
1024-byte policy limit is persisted and the mutation reports success, and a
zero-byte file is persisted the same way. -/
theorem c2_counterexample :
    (1024 : Nat) < 2048 ∧
      (∃ out, createPost true "imgA"
          { title := "t", content := "c", author := "a",
            image := some { name := "big.png", mimeType := "image/png",
                            size := 2048, bytes := [9, 9] } } = Except.ok out ∧
        FsOp.write (imageFinalPath "imgA" "image/png") [9, 9] ∈ out.fsOps) ∧
      (∃ out, createPost true "imgB"
          { title := "t", content := "c", author := "a",
            image := some { name := "empty.png", mimeType := "image/png",
                            size := 0, bytes := [] } } = Except.ok out ∧
        FsOp.write (imageFinalPath "imgB" "image/png") [] ∈ out.fsOps) := by
  refine ⟨by decide, ⟨_, rfl, by decide⟩, ⟨_, rfl, by decide⟩⟩

/-- C2 amended: the legacy `createPost` performs no size validation at all.
For every supplied file — in particular one whose declared size exceeds any
policy bound, and likewise a zero-byte file — the bytes are persisted under
the final upload path and no failure is reported. -/
theorem c2_amended (id : String) (args : CreatePostArgs) (img : UploadFile)
    (maxFileSize : Nat) (h : args.image = some img)
    (_hbad : maxFileSize < img.size ∨ img.size = 0) :
    ∃ out, createPost true id args = Except.ok out ∧
      FsOp.write (imageFinalPath id img.mimeType) img.bytes ∈ out.fsOps := by
  refine ⟨{ post := setImageView (fillPost args) (some id),
            savedImage := some
              { id := id, url := "/uploads/" ++ genFilename id img.mimeType,
                realPath := imageFinalPath id img.mimeType },
            fsOps := storeImageOps id img.mimeType img.bytes }, ?_, ?_⟩
  · simp [createPost, h]
  · simp [storeImageOps]

/-- C2 amended witness: the 2048-byte file under a 1024-byte limit is
persisted. -/
theorem c2_amended_witness :
    ∃ out, createPost true "imgA"
        { title := "t", content := "c", author := "a",
          image := some { name := "big.png", mimeType := "image/png",
                          size := 2048, bytes := [9, 9] } } = Except.ok out ∧
      FsOp.write (imageFinalPath "imgA" "image/png") [9, 9] ∈ out.fsOps :=
  c2_amended "imgA"
    { title := "t", content := "c", author := "a",
      image := some { name := "big.png", mimeType := "image/png", size := 2048, bytes := [9, 9] } }
    { name := "big.png", mimeType := "image/png", size := 2048, bytes := [9, 9] }
    1024 rfl (Or.inl (by decide))

/-- C6 counterexample: the claim's scenario — policy limit 1024 with only
`image/png` allowed and security on, file declared `image/png` with declared
size 2048 and a real JPEG signature — should yield an invalid outcome with a
size violation and a signature-mismatch violation (and hence no storage).
The legacy `createPost` runs no checks: the mutation succeeds and the file's
bytes, whose first three bytes are the JPEG magic number and which do not
start with the PNG magic number, are persisted under the final key. -/
theorem c6_counterexample :
    ([255, 216, 255, 224] : List Nat).take 3 = [255, 216, 255] ∧
      ([255, 216, 255, 224] : List Nat).take 4 ≠ [137, 80, 78, 71] ∧
      (1024 : Nat) < 2048 ∧
      (∃ out, createPost true "imgC"
          { title := "t", content := "c", author := "a",
            image := some { name := "photo.png", mimeType := "image/png",
                            size := 2048, bytes := [255, 216, 255, 224] } } = Except.ok out ∧
        FsOp.write (imageFinalPath "imgC" "image/png") [255, 216, 255, 224] ∈ out.fsOps) := by
  refine ⟨by decide, by decide, by decide, _, rfl, by decide⟩

/-- C6 amended: the legacy `createPost` runs no validation checks at all: no
check runs, no violation is ever reported, and the store is unconditional.
The mutation always succeeds, the performed filesystem operations are exactly
the unconditional store of the file's bytes, and they depend only on the
declared MIME type and the bytes — altering the declared size, the original
filename or any policy cannot change the outcome. -/
theorem c6_amended (id : String) (args : CreatePostArgs) (img : UploadFile)
    (h : args.image = some img) :
    ∃ out, createPost true id args = Except.ok out ∧
      out.fsOps = storeImageOps id img.mimeType img.bytes ∧
      ∀ (args2 : CreatePostArgs) (img2 : UploadFile), args2.image = some img2 →
        img2.mimeType = img.mimeType → img2.bytes = img.bytes →
        ∃ out2, createPost true id args2 = Except.ok out2 ∧ out2.fsOps = out.fsOps := by
  refine ⟨{ post := setImageView (fillPost args) (some id),
            savedImage := some
              { id := id, url := "/uploads/" ++ genFilename id img.mimeType,
                realPath := imageFinalPath id img.mimeType },
            fsOps := storeImageOps id img.mimeType img.bytes }, ?_, rfl, ?_⟩
  · simp [createPost, h]
  · intro args2 img2 h2 hm hb
    refine ⟨{ post := setImageView (fillPost args2) (some id),
              savedImage := some
                { id := id, url := "/uploads/" ++ genFilename id img2.mimeType,
                  realPath := imageFinalPath id img2.mimeType },
              fsOps := storeImageOps id img2.mimeType img2.bytes }, ?_, ?_⟩
    · simp [createPost, h2]
    · simp [hm, hb]

/-- C6 amended witness: the scenario file is stored unconditionally. -/
theorem c6_amended_witness :
    ∃ out, createPost true "imgC"
        { title := "t", content := "c", author := "a",
          image := some { name := "photo.png", mimeType := "image/png",
                          size := 2048, bytes := [255, 216, 255, 224] } } = Except.ok out ∧
      out.fsOps = storeImageOps "imgC" "image/png" [255, 216, 255, 224] ∧
      ∀ (args2 : CreatePostArgs) (img2 : UploadFile), args2.image = some img2 →
        img2.mimeType = "image/png" → img2.bytes = [255, 216, 255, 224] →
        ∃ out2, createPost true "imgC" args2 = Except.ok out2 ∧ out2.fsOps = out.fsOps :=
  c6_amended "imgC"
    { title := "t", content := "c", author := "a",
      image := some { name := "photo.png", mimeType := "image/png",
                      size := 2048, bytes := [255, 216, 255, 224] } }
    { name := "photo.png", mimeType := "image/png", size := 2048, bytes := [255, 216, 255, 224] }
    rfl

/-- C8: every post entity created by the legacy `createPost` carries an
`ImageViewComponent`: when an image argument is supplied its value is the id
of the saved image entity, and when no image is supplied its value is null,
with the component still attached to the post either way. -/
theorem c8_imageview_attached (id : String) (args : CreatePostArgs) :
    ∃ out, createPost true id args = Except.ok out ∧
      PostComp.imageViewC (args.image.map fun _ => id) ∈ out.post ∧
      out.savedImage = args.image.map fun img =>
        { id := id, url := "/uploads/" ++ genFilename id img.mimeType,
          realPath := imageFinalPath id img.mimeType } := by
  cases h : args.image with
  | none =>
      refine ⟨{ post := setImageView (fillPost args) none,
                savedImage := none, fsOps := [] }, ?_, ?_, ?_⟩
      · simp [createPost, h]
      · simp [setImageView, fillPost]
      · simp
  | some img =>
      refine ⟨{ post := setImageView (fillPost args) (some id),
                savedImage := some
                  { id := id, url := "/uploads/" ++ genFilename id img.mimeType,
                    realPath := imageFinalPath id img.mimeType },
                fsOps := storeImageOps id img.mimeType img.bytes }, ?_, ?_, ?_⟩
      · simp [createPost, h]
      · simp [setImageView, fillPost]
      · simp

/-- Per-file result as `processBatchImageUpload` consumes it
(ImageGalleryService.ts lines 495-535): success flag, optional upload id and
optional error message. Only the fields that function reads are modelled. -/
structure UploadResultM where
  success : Bool
  uploadId : Option String
  error : Option String
deriving DecidableEq, Inhabited

/-- Upload configuration fields relevant to the modelled claims
(`IMAGE_UPLOAD_CONFIG` shape). -/
structure UploadConfigM where
  maxFileSize : Nat
  allowedMimeTypes : List String
deriving DecidableEq

/-- Error raised by the upload coordinator before any file is processed. -/
inductive UploadErr where
  | configurationError (msg : String)
deriving DecidableEq

/-- Record of one coordinator run: the outcome (batch results or a raised
error) and the indices of the files whose per-file pipeline actually ran, in
completion order. -/
structure UploadRun where
  outcome : Except UploadErr (List UploadResultM)
  processed : List Nat

/-- Scatter-write of per-index results into a pre-sized sequence: worker
completing for index `i` stores its result at slot `i`, in the arbitrary
completion order `order`. -/
def scatter (f : Nat → α) (order : List Nat) (acc : List (Option α)) : List (Option α) :=
  order.foldl (fun a i => a.set i (some (f i))) acc

/-- Modelled from the spec: `UploadManager.uploadFiles`, the upload
coordinator's batch entry point that `processBatchImageUpload` delegates to;
its implementation is framework code not present in this repository. Per the
spec it validates the policy first and raises a `ConfigurationError` for a
malformed policy (zero `maxFileSize`) before any file processing begins, and
otherwise runs the per-file pipelines concurrently, indexing results into a
pre-sized sequence by input position regardless of worker completion order.
`process` is the per-file pipeline, `order` the completion order of the
concurrent workers. -/
def uploadFilesModel (process : UploadFile → UploadResultM) (files : List UploadFile)
    (cfg : UploadConfigM) (order : List Nat) : UploadRun :=
  if cfg.maxFileSize = 0 then
    { outcome := Except.error (UploadErr.configurationError "maxFileSize must be positive")
      processed := [] }
  else
    { outcome := Except.ok
        ((scatter (fun i => process (files.getD i default)) order
            (List.replicate files.length none)).map (fun o => o.getD default))
      processed := order }

/-- Per-result counting loop of `processBatchImageUpload`
(ImageGalleryService.ts lines 489-536): a result counts as successful when
`result.success && result.uploadId` is truthy (a present, non-empty id),
otherwise as failed, collecting error messages of failed results. -/
def countResults (results : List UploadResultM) : Nat × Nat × List String :=
  results.foldl
    (fun acc r =>
      if r.success && (match r.uploadId with | some u => !(u == "") | none => false) then
        (acc.1 + 1, acc.2.1, acc.2.2)
      else
        (acc.1, acc.2.1 + 1,
          match r.error with | some e => acc.2.2 ++ [e] | none => acc.2.2))
    (0, 0, [])

/-- Batch summary returned by `processBatchImageUpload`
(ImageGalleryService.ts lines 543-549). -/
structure BatchUploadResultM where
  totalFiles : Nat
  successfulUploads : Nat
  failedUploads : Nat
  results : List UploadResultM
  errors : List String
deriving DecidableEq

/-- Embedding of `ImageGalleryService.processBatchImageUpload`
(ImageGalleryService.ts lines 482-550): delegate the batch to the upload
coordinator (modelled above), then fold over the returned results counting
successes and failures and collecting errors; `totalFiles` is the input
length. An error raised by the coordinator propagates (the method has no
handler). The per-result image-entity and gallery bookkeeping has no bearing
on the modelled claims and is not tracked. -/
def processBatchImageUpload (process : UploadFile → UploadResultM) (files : List UploadFile)
    (cfg : UploadConfigM) (order : List Nat) :
    Except UploadErr BatchUploadResultM × List Nat :=
  let run := uploadFilesModel process files cfg order
  match run.outcome with
  | Except.error e => (Except.error e, run.processed)
  | Except.ok results =>
      let c := countResults results
      (Except.ok
        { totalFiles := files.length
          successfulUploads := c.1
          failedUploads := c.2.1
          results := results
          errors := c.2.2 }, run.processed)

/-- Slot `j` of a scatter-write holds `f j` exactly when some worker for `j`
has completed; untouched slots keep their initial value. -/
theorem scatter_getElem? (f : Nat → α) (order : List Nat) (acc : List (Option α))
    (j : Nat) (hj : j < acc.length) :
    (scatter f order acc)[j]? = if j ∈ order then some (some (f j)) else acc[j]? := by
  induction order generalizing acc with
  | nil => simp [scatter]
  | cons i rest ih =>
      have hlen : j < (acc.set i (some (f i))).length := by simpa using hj
      have hstep : scatter f (i :: rest) acc = scatter f rest (acc.set i (some (f i))) := rfl
      rw [hstep, ih _ hlen]
      by_cases hjr : j ∈ rest
      · simp [hjr]
      · by_cases hji : j = i
        · subst hji
          simp [hjr, List.getElem?_set_self hj]
        · simp [hjr, hji, List.getElem?_set_ne (fun h => hji h.symm)]

/-- Scatter-writing preserves the length of the pre-sized sequence. -/
theorem scatter_length (f : Nat → α) (order : List Nat) (acc : List (Option α)) :
    (scatter f order acc).length = acc.length := by
  induction order generalizing acc with
  | nil => rfl
  | cons i rest ih =>
      have hstep : scatter f (i :: rest) acc = scatter f rest (acc.set i (some (f i))) := rfl
      rw [hstep, ih]
      simp

/-- When the completion order is a permutation of the input positions, the
scatter-write fills every slot with its own result: the final sequence is the
in-order map of the per-file pipeline. -/
theorem scatter_perm_eq (process : UploadFile → UploadResultM) (files : List UploadFile)
    (order : List Nat) (hperm : order.Perm (List.range files.length)) :
    (scatter (fun i => process (files.getD i default)) order
        (List.replicate files.length none)).map (fun o => o.getD default) =
      files.map process := by
  have hlen : (scatter (fun i => process (files.getD i default)) order
      (List.replicate files.length none)).length = files.length := by
    rw [scatter_length]
    simp
  apply List.ext_getElem
  · rw [List.length_map, List.length_map]
    exact hlen
  · intro j h1 h2
    have hj : j < files.length := by simpa using h2
    have hmem : j ∈ order := hperm.mem_iff.mpr (List.mem_range.mpr hj)
    have hq := scatter_getElem? (fun i => process (files.getD i default)) order
      (List.replicate files.length none) j (by simpa using hj)
    rw [if_pos hmem] at hq
    have hjL : j < (scatter (fun i => process (files.getD i default)) order
        (List.replicate files.length none)).length := by
      rw [hlen]
      exact hj
    have hLj : (scatter (fun i => process (files.getD i default)) order
        (List.replicate files.length none))[j] = some (process (files.getD j default)) := by
      have h3 := List.getElem?_eq_getElem hjL
      rw [h3] at hq
      exact Option.some_injective _ hq
    have hgetd : files.getD j default = files[j] := by
      rw [List.getD_eq_getElem?_getD, List.getElem?_eq_getElem hj]
      rfl
    rw [List.getElem_map, List.getElem_map, hLj, hgetd]
    rfl

/-- Success and failure counts of the counting loop always sum to the number
of results. -/
theorem countResults_sum (results : List UploadResultM) :
    (countResults results).1 + (countResults results).2.1 = results.length := by
  suffices h : ∀ (s f : Nat) (e : List String),
      (results.foldl
        (fun acc r =>
          if r.success && (match r.uploadId with | some u => !(u == "") | none => false) then
            (acc.1 + 1, acc.2.1, acc.2.2)
          else
            (acc.1, acc.2.1 + 1,
              match r.error with | some er => acc.2.2 ++ [er] | none => acc.2.2))
        (s, f, e)).1 +
      (results.foldl
        (fun acc r =>
          if r.success && (match r.uploadId with | some u => !(u == "") | none => false) then
            (acc.1 + 1, acc.2.1, acc.2.2)
          else
            (acc.1, acc.2.1 + 1,
              match r.error with | some er => acc.2.2 ++ [er] | none => acc.2.2))
        (s, f, e)).2.1 = s + f + results.length by
    have := h 0 0 []
    simpa [countResults] using this
  induction results with
  | nil => intro s f e; simp
  | cons r rest ih =>
      intro s f e
      by_cases hr : (r.success && (match r.uploadId with | some u => !(u == "") | none => false)) = true
      · simp only [List.foldl_cons, hr, if_pos, List.length_cons]
        rw [ih]
        omega
      · simp only [List.foldl_cons, if_neg hr, List.length_cons]
        rw [ih]
        omega

/-- C5: for every input list, well-formed policy and arbitrary completion
order of the concurrent workers, the batch upload returns a result whose
`results` sequence is exactly the in-order image of the inputs (the i-th
element corresponds to the i-th input file), with `totalFiles` equal to the
input length and `successfulUploads + failedUploads = totalFiles`. -/
theorem c5_batch_order_and_counts (process : UploadFile → UploadResultM)
    (files : List UploadFile) (cfg : UploadConfigM) (order : List Nat)
    (hcfg : cfg.maxFileSize ≠ 0) (hperm : order.Perm (List.range files.length)) :
    ∃ b, (processBatchImageUpload process files cfg order).1 = Except.ok b ∧
      b.results = files.map process ∧
      b.totalFiles = files.length ∧
      b.successfulUploads + b.failedUploads = b.totalFiles := by
  have hok : uploadFilesModel process files cfg order =
      { outcome := Except.ok (files.map process), processed := order } := by
    simp only [uploadFilesModel, if_neg hcfg]
    rw [scatter_perm_eq process files order hperm]
  refine ⟨{ totalFiles := files.length,
            successfulUploads := (countResults (files.map process)).1,
            failedUploads := (countResults (files.map process)).2.1,
            results := files.map process,
            errors := (countResults (files.map process)).2.2 }, ?_, rfl, rfl, ?_⟩
  · simp only [processBatchImageUpload, hok]
  · simpa using countResults_sum (files.map process)

/-- Concrete per-file pipeline used by the batch witnesses. -/
def sampleProcess : UploadFile → UploadResultM :=
  fun f => { success := true, uploadId := some f.name, error := none }

/-- Concrete input files used by the batch witnesses. -/
def sampleFiles : List UploadFile :=
  [{ name := "a.png", mimeType := "image/png", size := 1, bytes := [1] },
   { name := "b.png", mimeType := "image/png", size := 2, bytes := [2] },
   { name := "c.png", mimeType := "image/png", size := 3, bytes := [3] }]

/-- Concrete well-formed configuration used by the C5 witness. -/
def sampleCfg : UploadConfigM :=
  { maxFileSize := 1048576, allowedMimeTypes := ["image/png"] }

/-- C5 witness: three concrete files with completion order `[2, 0, 1]`
still produce in-order results and consistent counts. -/
theorem c5_batch_order_and_counts_witness :
    (sampleCfg.maxFileSize ≠ 0 ∧ ([2, 0, 1] : List Nat).Perm (List.range sampleFiles.length)) ∧
      (∃ b, (processBatchImageUpload sampleProcess sampleFiles sampleCfg [2, 0, 1]).1 =
          Except.ok b ∧
        b.results = sampleFiles.map sampleProcess ∧
        b.totalFiles = sampleFiles.length ∧
        b.successfulUploads + b.failedUploads = b.totalFiles) :=
  ⟨⟨by decide, by decide⟩,
    c5_batch_order_and_counts sampleProcess sampleFiles sampleCfg [2, 0, 1]
      (by decide) (by decide)⟩

/-- C7: for every batch whose policy carries `maxFileSize = 0`, the batch
upload raises a `ConfigurationError` and no per-file pipeline runs: the set
of processed files is empty, so no bytes are read or written. -/
theorem c7_zero_max_config_error (process : UploadFile → UploadResultM)
    (files : List UploadFile) (cfg : UploadConfigM) (order : List Nat)
    (hcfg : cfg.maxFileSize = 0) :
    (processBatchImageUpload process files cfg order).1 =
        Except.error (UploadErr.configurationError "maxFileSize must be positive") ∧
      (processBatchImageUpload process files cfg order).2 = [] := by
  have hrun : uploadFilesModel process files cfg order =
      { outcome := Except.error (UploadErr.configurationError "maxFileSize must be positive")
        processed := [] } := by
    simp [uploadFilesModel, hcfg]
  constructor <;> simp [processBatchImageUpload, hrun]

/-- Concrete malformed configuration used by the C7 witness. -/
def sampleZeroCfg : UploadConfigM :=
  { maxFileSize := 0, allowedMimeTypes := ["image/png"] }

/-- C7 witness: a concrete batch under `maxFileSize = 0` raises before
touching any file. -/
theorem c7_zero_max_config_error_witness :
    (processBatchImageUpload sampleProcess sampleFiles sampleZeroCfg [0, 1, 2]).1 =
        Except.error (UploadErr.configurationError "maxFileSize must be positive") ∧
      (processBatchImageUpload sampleProcess sampleFiles sampleZeroCfg [0, 1, 2]).2 = [] :=
  c7_zero_max_config_error sampleProcess sampleFiles sampleZeroCfg [0, 1, 2] rfl

/-- Characters of one JSON-quoted id: `JSON.stringify` output for a string
that needs no escaping. -/
def quoteChars (s : String) : List Char :=
  '"' :: s.data ++ ['"']

/-- Characters between the brackets of `JSON.stringify(ids)`: the quoted ids
joined by commas. -/
def serializeIdsChars : List String → List Char
  | [] => []
  | [s] => quoteChars s
  | s :: rest => quoteChars s ++ ',' :: serializeIdsChars rest

/-- The `JSON.stringify` call of `GalleryImageComponent.addImageId`
(ImageGalleryService.ts line 100), restricted to arrays of strings that need
no escaping (entity ids contain no quote, backslash or control character). -/
def serializeIds (ids : List String) : String :=
  String.mk ('[' :: serializeIdsChars ids ++ [']'])

/-- Parser state for the JSON string-array grammar: expecting an item,
inside a quoted string (accumulating its characters in reverse), or after a
completed item. -/
inductive PState where
  | expectItem
  | inStr (cur : List Char)
  | afterItem

/-- Character-level acceptor for the canonical JSON string-array body (the
part after the opening bracket). Models `JSON.parse` on the strings this
component ever stores; any other input is a parse failure, which in the
source raises and is caught. -/
def runParse : PState → List String → List Char → Option (List String)
  | PState.expectItem, acc, c :: cs =>
      if c = '"' then runParse (PState.inStr []) acc cs else none
  | PState.expectItem, _, [] => none
  | PState.inStr cur, acc, c :: cs =>
      if c = '"' then runParse PState.afterItem (acc ++ [String.mk cur.reverse]) cs
      else runParse (PState.inStr (c :: cur)) acc cs
  | PState.inStr _, _, [] => none
  | PState.afterItem, acc, c :: cs =>
      if c = ',' then runParse PState.expectItem acc cs
      else if c = ']' then (if cs = [] then some acc else none)
      else none
  | PState.afterItem, _, [] => none

/-- The `JSON.parse` call of `GalleryImageComponent.getImageIds`
(ImageGalleryService.ts line 90), restricted to the canonical escape-free
string arrays the component itself ever writes (its reachable states):
`none` stands for `JSON.parse` throwing. This restriction is adequate for
the reachable-state reasoning of `addImageId`; the full-scope model of
`JSON.parse` over arbitrary stored strings is `jsonParse` below. -/
def parseIdsOpt (s : String) : Option (List String) :=
  match s.data with
  | [] => none
  | c :: cs =>
      if c = '[' then
        if cs = [']'] then some []
        else runParse PState.expectItem [] cs
      else none

/-- Embedding of `GalleryImageComponent.getImageIds` (ImageGalleryService.ts
lines 88-94) on the component's canonical reachable states: parse the stored
string, returning the empty list when parsing fails (the `catch` branch).
The declared TypeScript type is `string[]`; the untyped full-scope embedding
over arbitrary stored strings is `getImageIdsJs` below. -/
def getImageIds (stored : String) : List String :=
  match parseIdsOpt stored with
  | some l => l
  | none => []

/-- Embedding of `GalleryImageComponent.addImageId` (ImageGalleryService.ts
lines 96-102): parse the current list; when the id is absent, append it and
re-serialize; when it is present, leave the stored string untouched. -/
def addImageId (stored : String) (imageId : String) : String :=
  let imageIds := getImageIds stored
  if imageId ∈ imageIds then stored
  else serializeIds (imageIds ++ [imageId])

/-- Ids needing no JSON escaping: no quote, no backslash, no control
character. Framework entity ids satisfy this. -/
def SimpleId (s : String) : Prop :=
  ∀ c ∈ s.data, c ≠ '"' ∧ c ≠ '\\' ∧ 32 ≤ c.toNat

instance (s : String) : Decidable (SimpleId s) :=
  List.decidableBAll _ s.data

/-- Scanning a quote-free character block inside a string item consumes the
block and the closing quote, appending the accumulated item. -/
theorem runParse_inStr (cs : List Char) (hq : '"' ∉ cs) (cur : List Char)
    (acc : List String) (tail : List Char) :
    runParse (PState.inStr cur) acc (cs ++ '"' :: tail) =
      runParse PState.afterItem (acc ++ [String.mk (cur.reverse ++ cs)]) tail := by
  induction cs generalizing cur with
  | nil => simp [runParse]
  | cons c cs ih =>
      have hc : c ≠ '"' := fun h => hq (h ▸ List.mem_cons_self c cs)
      have hq2 : '"' ∉ cs := fun h => hq (List.mem_cons_of_mem c h)
      rw [List.cons_append]
      show (if c = '"' then runParse PState.afterItem (acc ++ [String.mk cur.reverse]) (cs ++ '"' :: tail)
        else runParse (PState.inStr (c :: cur)) acc (cs ++ '"' :: tail)) = _
      rw [if_neg hc, ih hq2 (c :: cur)]
      simp [List.append_assoc]

/-- Parsing the serialized body of a nonempty id list (followed by the
closing bracket) yields exactly those ids. -/
theorem runParse_items (ids : List String) (hne : ids ≠ [])
    (hs : ∀ s ∈ ids, SimpleId s) (acc : List String) :
    runParse PState.expectItem acc (serializeIdsChars ids ++ [']']) = some (acc ++ ids) := by
  induction ids generalizing acc with
  | nil => exact absurd rfl hne
  | cons s rest ih =>
      have hq : '"' ∉ s.data := fun h => ((hs s (List.mem_cons_self s rest)) '"' h).1 rfl
      cases rest with
      | nil =>
          show runParse PState.expectItem acc (quoteChars s ++ [']']) = _
          have harr : quoteChars s ++ [']'] = '"' :: (s.data ++ '"' :: [']']) := by
            simp [quoteChars]
          rw [harr]
          show (if '"' = '"' then runParse (PState.inStr []) acc (s.data ++ '"' :: [']']) else none) = _
          rw [if_pos rfl, runParse_inStr s.data hq [] acc [']']]
          show (if ']' = ',' then runParse PState.expectItem (acc ++ [String.mk ([].reverse ++ s.data)]) []
            else if ']' = ']' then (if ([] : List Char) = [] then some (acc ++ [String.mk ([].reverse ++ s.data)]) else none)
            else none) = _
          have hmk : String.mk (([] : List Char).reverse ++ s.data) = s := by
            cases s
            rfl
          rw [if_neg (by decide), if_pos rfl, if_pos rfl, hmk]
      | cons t rest2 =>
          have hrest : (t :: rest2) ≠ [] := by simp
          have hs2 : ∀ x ∈ t :: rest2, SimpleId x := fun x hx => hs x (List.mem_cons_of_mem s hx)
          show runParse PState.expectItem acc
            ((quoteChars s ++ ',' :: serializeIdsChars (t :: rest2)) ++ [']']) = _
          have harr : (quoteChars s ++ ',' :: serializeIdsChars (t :: rest2)) ++ [']'] =
              '"' :: (s.data ++ '"' :: (',' :: (serializeIdsChars (t :: rest2) ++ [']']))) := by
            simp [quoteChars]
          rw [harr]
          show (if '"' = '"' then runParse (PState.inStr []) acc
            (s.data ++ '"' :: (',' :: (serializeIdsChars (t :: rest2) ++ [']']))) else none) = _
          rw [if_pos rfl, runParse_inStr s.data hq [] acc]
          show (if ',' = ',' then runParse PState.expectItem (acc ++ [String.mk ([].reverse ++ s.data)])
            (serializeIdsChars (t :: rest2) ++ [']']) else _) = _
          have hmk : String.mk (([] : List Char).reverse ++ s.data) = s := by
            cases s
            rfl
          rw [if_pos rfl, hmk, ih hrest hs2 (acc ++ [s])]
          simp

/-- Round trip: parsing the serialization of a list of escape-free ids
recovers the list. -/
theorem parse_serialize (ids : List String) (hs : ∀ s ∈ ids, SimpleId s) :
    parseIdsOpt (serializeIds ids) = some ids := by
  cases ids with
  | nil => rfl
  | cons s rest =>
      have hhead : ∃ t, serializeIdsChars (s :: rest) = '"' :: t := by
        cases rest with
        | nil => exact ⟨s.data ++ ['"'], rfl⟩
        | cons t r2 => exact ⟨(s.data ++ ['"']) ++ ',' :: serializeIdsChars (t :: r2), rfl⟩
      obtain ⟨t, ht⟩ := hhead
      show parseIdsOpt (String.mk ('[' :: serializeIdsChars (s :: rest) ++ [']'])) = _
      show (if '[' = '[' then
          (if serializeIdsChars (s :: rest) ++ [']'] = [']'] then some []
           else runParse PState.expectItem [] (serializeIdsChars (s :: rest) ++ [']']))
        else none) = _
      rw [if_pos rfl, if_neg (by rw [ht]; simp)]
      rw [runParse_items (s :: rest) (by simp) hs []]
      simp

/-- Carrying the component's invariant through a sequence of `addImageId`
calls: the stored string stays the canonical serialization of a
duplicate-free list of escape-free ids. -/
theorem addImageId_invariant (ids : List String) (hs : ∀ s ∈ ids, SimpleId s) :
    ∀ start : List String, (∀ s ∈ start, SimpleId s) → start.Nodup →
      ∃ l, ids.foldl addImageId (serializeIds start) = serializeIds l ∧
        l.Nodup ∧ ∀ s ∈ l, SimpleId s := by
  induction ids with
  | nil => exact fun start h1 h2 => ⟨start, rfl, h2, h1⟩
  | cons id rest ih =>
      intro start h1 h2
      have hrest : ∀ s ∈ rest, SimpleId s := fun s h => hs s (List.mem_cons_of_mem id h)
      have hget : getImageIds (serializeIds start) = start := by
        simp [getImageIds, parse_serialize start h1]
      rw [List.foldl_cons]
      by_cases hmem : id ∈ getImageIds (serializeIds start)
      · have hstep : addImageId (serializeIds start) id = serializeIds start := by
          simp only [addImageId, if_pos hmem]
        rw [hstep]
        exact ih hrest start h1 h2
      · rw [hget] at hmem
        have hstep : addImageId (serializeIds start) id =
            serializeIds (start ++ [id]) := by
          simp only [addImageId, hget, if_neg hmem]
        rw [hstep]
        apply ih hrest (start ++ [id])
        · intro s h
          rcases List.mem_append.mp h with h | h
          · exact h1 s h
          · rw [List.mem_singleton.mp h]
            exact hs id (List.mem_cons_self id rest)
        · simp [List.nodup_append, h2, hmem]

/-- C9: `GalleryImageComponent.addImageId` is idempotent — adding an id that
is already present leaves the stored component unchanged — and consequently
the image-id list produced by any sequence of `addImageId` calls starting
from the component's default `"[]"` never contains duplicates (for ids free
of JSON escapes, as framework entity ids are). -/
theorem c9_addImageId_idempotent_nodup :
    (∀ stored imageId : String, imageId ∈ getImageIds stored →
        addImageId stored imageId = stored) ∧
      (∀ ids : List String, (∀ s ∈ ids, SimpleId s) →
        (getImageIds (ids.foldl addImageId "[]")).Nodup) := by
  constructor
  · intro stored imageId h
    simp only [addImageId, if_pos h]
  · intro ids hs
    have hstart : ("[]" : String) = serializeIds [] := by decide
    rw [hstart]
    obtain ⟨l, heq, hnodup, hsimple⟩ :=
      addImageId_invariant ids hs [] (by simp) List.nodup_nil
    rw [heq]
    simpa [getImageIds, parse_serialize l hsimple] using hnodup

/-- C9 witness: re-adding `"a"` to `["a"]` leaves the stored string
untouched, and the call sequence `a, b, a` from the default state yields a
duplicate-free list. -/
theorem c9_addImageId_idempotent_nodup_witness :
    ("a" ∈ getImageIds "[\"a\"]" ∧ addImageId "[\"a\"]" "a" = "[\"a\"]") ∧
      ((∀ s ∈ (["a", "b", "a"] : List String), SimpleId s) ∧
        (getImageIds ((["a", "b", "a"] : List String).foldl addImageId "[]")).Nodup) :=
  ⟨⟨by decide, c9_addImageId_idempotent_nodup.1 "[\"a\"]" "a" (by decide)⟩,
    ⟨by decide, c9_addImageId_idempotent_nodup.2 ["a", "b", "a"] (by decide)⟩⟩

/-- JavaScript value as `JSON.parse` returns it, for the untyped full-scope
embedding of `getImageIds`. Number literals are kept as written (no claim
inspects a numeric value); string contents are the decoded characters. -/
inductive Js where
  | nullV
  | boolV (b : Bool)
  | numV (lit : String)
  | strV (content : String)
  | arrV (elems : List Js)
  | objV (fields : List (String × Js))

/-- Discriminator: is the value a JSON array (the only shape that can be a
list of ids)? -/
def Js.isArr : Js → Bool
  | Js.arrV _ => true
  | _ => false

/-- JSON whitespace skipping (space, tab, line feed, carriage return). -/
def skipWs : List Char → List Char
  | c :: cs =>
      if c = ' ' ∨ c = '\t' ∨ c = '\n' ∨ c = '\r' then skipWs cs else c :: cs
  | [] => []

/-- Hexadecimal digit test for `\u` escapes. -/
def isHexDigit (c : Char) : Bool :=
  c.isDigit || ('a' ≤ c && c ≤ 'f') || ('A' ≤ c && c ≤ 'F')

/-- Value of a hexadecimal digit. -/
def hexVal (c : Char) : Nat :=
  if c.isDigit then c.toNat - 48
  else if 'a' ≤ c then c.toNat - 87
  else c.toNat - 55

/-- Decoding of a single-character JSON escape; `none` is the syntax error
`JSON.parse` raises on an invalid escape. -/
def escChar (e : Char) : Option Char :=
  if e = '"' then some '"'
  else if e = '\\' then some '\\'
  else if e = '/' then some '/'
  else if e = 'b' then some (Char.ofNat 8)
  else if e = 'f' then some (Char.ofNat 12)
  else if e = 'n' then some '\n'
  else if e = 'r' then some (Char.ofNat 13)
  else if e = 't' then some '\t'
  else none

/-- Scanner for the body of a JSON string (after the opening quote): returns
the decoded content and the input after the closing quote, or `none` on an
unterminated string, a raw control character, or an invalid escape — exactly
the cases where `JSON.parse` raises. A `\u` escape decodes its code point
with `Char.ofNat`; surrogate code units, which have no Lean `Char`
counterpart, take its fallback (no claim depends on them). -/
def scanJsonString : List Char → Option (List Char × List Char)
  | [] => none
  | c :: cs =>
      if c = '"' then some ([], cs)
      else if c = '\\' then
        match cs with
        | [] => none
        | e :: cs2 =>
            if e = 'u' then
              match cs2 with
              | h1 :: h2 :: h3 :: h4 :: cs3 =>
                  if isHexDigit h1 && isHexDigit h2 && isHexDigit h3 && isHexDigit h4 then
                    (scanJsonString cs3).map fun p =>
                      (Char.ofNat (hexVal h1 * 4096 + hexVal h2 * 256 + hexVal h3 * 16 + hexVal h4) :: p.1, p.2)
                  else none
              | _ => none
            else
              match escChar e with
              | some d => (scanJsonString cs2).map fun p => (d :: p.1, p.2)
              | none => none
      else if c.toNat < 32 then none
      else (scanJsonString cs).map fun p => (c :: p.1, p.2)

/-- Fraction part of a JSON number: `.` followed by one or more digits, or
nothing. -/
def scanFracPart (cs : List Char) : Option (List Char × List Char) :=
  match cs with
  | '.' :: t =>
      let p := List.span Char.isDigit t
      if p.1 = [] then none else some ('.' :: p.1, p.2)
  | _ => some ([], cs)

/-- Exponent part of a JSON number: `e`/`E`, optional sign, one or more
digits, or nothing. -/
def scanExpPart (cs : List Char) : Option (List Char × List Char) :=
  match cs with
  | c :: t =>
      if c = 'e' ∨ c = 'E' then
        let sp := match t with
          | s :: t2 => if s = '+' ∨ s = '-' then ([s], t2) else (([] : List Char), t)
          | [] => (([] : List Char), t)
        let p := List.span Char.isDigit sp.2
        if p.1 = [] then none else some (c :: sp.1 ++ p.1, p.2)
      else some ([], cs)
  | [] => some ([], [])

/-- Fraction and exponent continuation after the integer part. -/
def scanFracExp (acc : List Char) (cs : List Char) : Option (List Char × List Char) :=
  match scanFracPart cs with
  | none => none
  | some (fr, cs1) =>
      match scanExpPart cs1 with
      | none => none
      | some (ex, cs2) => some (acc ++ fr ++ ex, cs2)

/-- Scanner for a JSON number per the JSON grammar: optional minus, `0` or a
nonzero-led digit run, optional fraction, optional exponent; the lexeme is
kept as written. -/
def scanNumber (cs : List Char) : Option (List Char × List Char) :=
  let np := match cs with
    | '-' :: t => ((['-'] : List Char), t)
    | _ => (([] : List Char), cs)
  match np.2 with
  | c :: t =>
      if c = '0' then scanFracExp (np.1 ++ ['0']) t
      else if c.isDigit then
        let p := List.span Char.isDigit t
        scanFracExp (np.1 ++ c :: p.1) p.2
      else none
  | [] => none

/-- Mode of the recursive-descent JSON parser: a value, the elements of an
array after its opening bracket (nonempty case), or the members of an object
after its opening brace (nonempty case). -/
inductive PMode where
  | value
  | elems (acc : List Js)
  | members (acc : List (String × Js))

/-- Recursive-descent parser for full JSON (values: object, array, string,
number, `true`, `false`, `null`, with interspersed whitespace), following the
grammar `JSON.parse` implements. The fuel argument only makes the recursion
structural: every nested value and every further element consumes input, so
any fuel of at least twice the input length never runs out (callers pass
that); its exhaustion branch is unreachable on actual inputs. -/
def parseRun : Nat → PMode → List Char → Option (Js × List Char)
  | 0, _, _ => none
  | _ + 1, PMode.value, [] => none
  | fuel + 1, PMode.value, c :: t =>
      if c = '"' then
        match scanJsonString t with
        | some (raw, rest) => some (Js.strV (String.mk raw), rest)
        | none => none
      else if c = '[' then
        match skipWs t with
        | ']' :: r => some (Js.arrV [], r)
        | t1 => parseRun fuel (PMode.elems []) t1
      else if c = '{' then
        match skipWs t with
        | '}' :: r => some (Js.objV [], r)
        | t1 => parseRun fuel (PMode.members []) t1
      else if (c :: t).take 4 = ['t', 'r', 'u', 'e'] then some (Js.boolV true, t.drop 3)
      else if (c :: t).take 5 = ['f', 'a', 'l', 's', 'e'] then some (Js.boolV false, t.drop 4)
      else if (c :: t).take 4 = ['n', 'u', 'l', 'l'] then some (Js.nullV, t.drop 3)
      else if c = '-' ∨ c.isDigit then
        match scanNumber (c :: t) with
        | some (lit, rest) => some (Js.numV (String.mk lit), rest)
        | none => none
      else none
  | fuel + 1, PMode.elems acc, cs =>
      match parseRun fuel PMode.value cs with
      | some (v, rest) =>
          match skipWs rest with
          | ',' :: r2 => parseRun fuel (PMode.elems (acc ++ [v])) (skipWs r2)
          | ']' :: r2 => some (Js.arrV (acc ++ [v]), r2)
          | _ => none
      | none => none
  | fuel + 1, PMode.members acc, cs =>
      match cs with
      | '"' :: t =>
          match scanJsonString t with
          | some (key, rest) =>
              match skipWs rest with
              | ':' :: r2 =>
                  match parseRun fuel PMode.value (skipWs r2) with
                  | some (v, r3) =>
                      match skipWs r3 with
                      | ',' :: r4 =>
                          parseRun fuel (PMode.members (acc ++ [(String.mk key, v)])) (skipWs r4)
                      | '}' :: r4 => some (Js.objV (acc ++ [(String.mk key, v)]), r4)
                      | _ => none
                  | none => none
              | _ => none
          | none => none
      | _ => none

/-- Full-scope model of `JSON.parse` (ImageGalleryService.ts line 90): parse
one JSON value with surrounding whitespace; any leftover input is a syntax
error. `none` stands for `JSON.parse` throwing. -/
def jsonParse (s : String) : Option Js :=
  match parseRun (2 * s.data.length + 4) PMode.value (skipWs s.data) with
  | some (v, rest) => if skipWs rest = [] then some v else none
  | none => none

/-- Untyped full-scope embedding of `GalleryImageComponent.getImageIds`
(ImageGalleryService.ts lines 88-94) over arbitrary stored strings: the
source returns whatever `JSON.parse` produced — the declared `string[]` type
notwithstanding — and the empty array from the `catch` branch when parsing
throws. -/
def getImageIdsJs (stored : String) : Js :=
  match jsonParse stored with
  | some v => v
  | none => Js.arrV []

/-- Whitespace skipping is the identity on input starting with a
non-whitespace character. -/
theorem skipWs_nonws (c : Char) (t : List Char)
    (h : ¬(c = ' ' ∨ c = '\t' ∨ c = '\n' ∨ c = '\r')) : skipWs (c :: t) = c :: t := by
  simp only [skipWs]
  rw [if_neg h]

/-- One-step unfolding of the parser on a quoted string value. -/
theorem parseRun_value_str_unfold (fuel : Nat) (t : List Char) :
    parseRun (fuel + 1) PMode.value ('"' :: t) =
      match scanJsonString t with
      | some (raw, rest) => some (Js.strV (String.mk raw), rest)
      | none => none := rfl

/-- One-step unfolding of the parser on an array value. -/
theorem parseRun_value_arr_unfold (fuel : Nat) (t : List Char) :
    parseRun (fuel + 1) PMode.value ('[' :: t) =
      match skipWs t with
      | ']' :: r => some (Js.arrV [], r)
      | t1 => parseRun fuel (PMode.elems []) t1 := rfl

/-- One-step unfolding of the parser in element mode. -/
theorem parseRun_elems_unfold (fuel : Nat) (acc : List Js) (cs : List Char) :
    parseRun (fuel + 1) (PMode.elems acc) cs =
      match parseRun fuel PMode.value cs with
      | some (v, rest) =>
          match skipWs rest with
          | ',' :: r2 => parseRun fuel (PMode.elems (acc ++ [v])) (skipWs r2)
          | ']' :: r2 => some (Js.arrV (acc ++ [v]), r2)
          | _ => none
      | none => none := rfl

/-- Scanning an escape-free character block followed by a closing quote
consumes exactly the block. -/
theorem scanJsonString_simple (s : List Char)
    (hs : ∀ c ∈ s, c ≠ '"' ∧ c ≠ '\\' ∧ 32 ≤ c.toNat) (rest : List Char) :
    scanJsonString (s ++ '"' :: rest) = some (s, rest) := by
  induction s with
  | nil =>
      rw [List.nil_append, scanJsonString.eq_def]
      simp
  | cons c cs ih =>
      have hc := hs c (List.mem_cons_self c cs)
      have hcs : ∀ x ∈ cs, x ≠ '"' ∧ x ≠ '\\' ∧ 32 ≤ x.toNat :=
        fun x hx => hs x (List.mem_cons_of_mem c hx)
      rw [List.cons_append, scanJsonString.eq_def]
      simp only []
      rw [if_neg hc.1, if_neg hc.2.1, if_neg (by omega : ¬ c.toNat < 32), ih hcs]
      rfl

/-- The full parser on a quoted escape-free id consumes the string and
returns it. -/
theorem parseRun_value_str (fuel : Nat) (s : String) (hs : SimpleId s) (rest : List Char) :
    parseRun (fuel + 1) PMode.value ('"' :: (s.data ++ '"' :: rest)) =
      some (Js.strV s, rest) := by
  obtain ⟨sd⟩ := s
  rw [parseRun_value_str_unfold, scanJsonString_simple sd hs rest]

/-- The serialized body of a nonempty id list starts with a quote. -/
theorem serializeIdsChars_head (u : String) (rs : List String) :
    ∃ y, serializeIdsChars (u :: rs) = '"' :: y := by
  cases rs with
  | nil => exact ⟨u.data ++ ['"'], rfl⟩
  | cons a b => exact ⟨(u.data ++ ['"']) ++ ',' :: serializeIdsChars (a :: b), rfl⟩

/-- The serialized body is at least twice as long as the id count (each id
contributes two quotes). -/
theorem serializeIdsChars_len (ids : List String) :
    2 * ids.length ≤ (serializeIdsChars ids).length := by
  induction ids with
  | nil => simp [serializeIdsChars]
  | cons s rest ih =>
      cases rest with
      | nil =>
          show 2 * [s].length ≤ (quoteChars s).length
          simp [quoteChars]
      | cons t r2 =>
          show 2 * (s :: t :: r2).length ≤ (quoteChars s ++ ',' :: serializeIdsChars (t :: r2)).length
          simp only [quoteChars, List.length_append, List.length_cons, List.length_map] at ih ⊢
          omega

/-- The full parser, in element mode, consumes the serialized body of a
nonempty escape-free id list up to the closing bracket and returns the
accumulated array, given fuel at least twice the id count. -/
theorem parseRun_elems (ids : List String) (hne : ids ≠ [])
    (hs : ∀ s ∈ ids, SimpleId s) (acc : List Js) (fuel : Nat)
    (hf : 2 * ids.length ≤ fuel) :
    parseRun fuel (PMode.elems acc) (serializeIdsChars ids ++ [']']) =
      some (Js.arrV (acc ++ ids.map Js.strV), []) := by
  induction ids generalizing acc fuel with
  | nil => exact absurd rfl hne
  | cons s rest ih =>
      have hlen : 2 ≤ fuel := by
        simp only [List.length_cons] at hf
        omega
      obtain ⟨f, rfl⟩ : ∃ f, fuel = f + 1 := ⟨fuel - 1, by omega⟩
      obtain ⟨g, rfl⟩ : ∃ g, f = g + 1 := ⟨f - 1, by omega⟩
      cases rest with
      | nil =>
          have harr : serializeIdsChars [s] ++ [']'] = '"' :: (s.data ++ '"' :: [']']) := by
            simp [serializeIdsChars, quoteChars]
          rw [harr, parseRun_elems_unfold,
            parseRun_value_str g s (hs s (List.mem_cons_self s [])) [']']]
          rfl
      | cons t r2 =>
          have harr : serializeIdsChars (s :: t :: r2) ++ [']'] =
              '"' :: (s.data ++ '"' :: (',' :: (serializeIdsChars (t :: r2) ++ [']']))) := by
            simp [serializeIdsChars, quoteChars]
          rw [harr, parseRun_elems_unfold,
            parseRun_value_str g s (hs s (List.mem_cons_self s (t :: r2)))
              (',' :: (serializeIdsChars (t :: r2) ++ [']']))]
          show parseRun (g + 1) (PMode.elems (acc ++ [Js.strV s]))
              (skipWs (serializeIdsChars (t :: r2) ++ [']'])) =
            some (Js.arrV (acc ++ (s :: t :: r2).map Js.strV), [])
          obtain ⟨y, hy⟩ := serializeIdsChars_head t r2
          have hskip : skipWs (serializeIdsChars (t :: r2) ++ [']']) =
              serializeIdsChars (t :: r2) ++ [']'] := by
            rw [hy, List.cons_append]
            exact skipWs_nonws '"' _ (by decide)
          rw [hskip]
          have hf2 : 2 * (t :: r2).length ≤ g + 1 := by
            simp only [List.length_cons] at hf ⊢
            omega
          rw [ih (by simp) (fun x hx => hs x (List.mem_cons_of_mem s hx)) (acc ++ [Js.strV s])
            (g + 1) hf2]
          simp

/-- The full parser accepts the bracketed serialization of a nonempty
escape-free id list as an array value, given sufficient fuel. -/
theorem parseRun_value_arr (ids : List String) (hne : ids ≠ [])
    (hs : ∀ s ∈ ids, SimpleId s) (fuel : Nat) (hf : 2 * ids.length + 1 ≤ fuel) :
    parseRun fuel PMode.value ('[' :: (serializeIdsChars ids ++ [']'])) =
      some (Js.arrV (ids.map Js.strV), []) := by
  obtain ⟨f, rfl⟩ : ∃ f, fuel = f + 1 := ⟨fuel - 1, by omega⟩
  obtain ⟨s, rest, rfl⟩ : ∃ s rest, ids = s :: rest := by
    cases ids with
    | nil => exact absurd rfl hne
    | cons s rest => exact ⟨s, rest, rfl⟩
  rw [parseRun_value_arr_unfold]
  obtain ⟨y, hy⟩ := serializeIdsChars_head s rest
  rw [hy, List.cons_append, skipWs_nonws '"' _ (by decide)]
  show parseRun f (PMode.elems []) ('"' :: (y ++ [']'])) =
    some (Js.arrV ((s :: rest).map Js.strV), [])
  rw [← List.cons_append, ← hy]
  exact parseRun_elems (s :: rest) hne hs [] f (by omega)

/-- Round trip through the full JSON model: the serialization of an
escape-free id list parses back to the corresponding array value. -/
theorem jsonParse_serialize (ids : List String) (hs : ∀ s ∈ ids, SimpleId s) :
    jsonParse (serializeIds ids) = some (Js.arrV (ids.map Js.strV)) := by
  cases ids with
  | nil => rfl
  | cons s rest =>
      have hdata : (serializeIds (s :: rest)).data =
          '[' :: (serializeIdsChars (s :: rest) ++ [']']) := rfl
      have hlen := serializeIdsChars_len (s :: rest)
      unfold jsonParse
      rw [hdata, skipWs_nonws '[' _ (by decide)]
      rw [parseRun_value_arr (s :: rest) (by simp) hs _
        (by
          simp only [List.length_cons, List.length_append, List.length_nil] at hlen ⊢
          omega)]
      rfl

/-- C10 counterexample: the claim says that for every stored `imageIds`
string `getImageIds` returns a list of ids, falling back to the empty list
when parsing fails. But `JSON.parse` succeeds on valid JSON that is not an
array of ids: stored `5` parses to the number 5 — not a list at all — which
the source returns as-is (no fallback fires), and the whitespace-bearing
array `["a", "b"]` also parses successfully, so the fallback does not fire
there either. -/
theorem c10_counterexample :
    jsonParse "5" = some (Js.numV "5") ∧
      getImageIdsJs "5" = Js.numV "5" ∧
      (getImageIdsJs "5").isArr = false ∧
      jsonParse "[\"a\", \"b\"]" = some (Js.arrV [Js.strV "a", Js.strV "b"]) ∧
      getImageIdsJs "[\"a\", \"b\"]" = Js.arrV [Js.strV "a", Js.strV "b"] :=
  ⟨rfl, rfl, rfl, rfl, rfl⟩

/-- C10 amended: `GalleryImageComponent.getImageIds` is total and never
throws: for every stored `imageIds` string it returns the `JSON.parse` value
unchanged when the string is valid JSON — a list of ids only when that value
is an array of ids, e.g. a stored number comes back as a number — and falls
back to the empty list exactly when `JSON.parse` fails; every state the
component itself writes (an escape-free string array) parses back to its
ids. -/
theorem c10_amended :
    (∀ ids : List String, (∀ s ∈ ids, SimpleId s) →
        getImageIdsJs (serializeIds ids) = Js.arrV (ids.map Js.strV)) ∧
      (∀ (stored : String) (v : Js), jsonParse stored = some v → getImageIdsJs stored = v) ∧
      (∀ stored : String, jsonParse stored = none → getImageIdsJs stored = Js.arrV []) := by
  refine ⟨fun ids hs => ?_, fun stored v h => ?_, fun stored h => ?_⟩
  · simp [getImageIdsJs, jsonParse_serialize ids hs]
  · simp [getImageIdsJs, h]
  · simp [getImageIdsJs, h]

/-- C10 amended witness: the canonical two-id state parses back to its ids,
the stored number `5` is returned unchanged, and the non-JSON string `nope`
falls back to the empty array. -/
theorem c10_amended_witness :
    ((∀ s ∈ (["a", "b"] : List String), SimpleId s) ∧
        getImageIdsJs (serializeIds ["a", "b"]) =
          Js.arrV ((["a", "b"] : List String).map Js.strV)) ∧
      (jsonParse "5" = some (Js.numV "5") ∧ getImageIdsJs "5" = Js.numV "5") ∧
      (jsonParse "nope" = none ∧ getImageIdsJs "nope" = Js.arrV []) :=
  ⟨⟨by decide, c10_amended.1 ["a", "b"] (by decide)⟩,
    ⟨rfl, c10_amended.2.1 "5" (Js.numV "5") rfl⟩,
    ⟨rfl, c10_amended.2.2 "nope" rfl⟩⟩

end BunsaneSample
